import Mathlib

/-!
Verification of the ABS cash-flow simulator (`ABS.py`).

Money amounts and rates are modelled as rationals (`ℚ`).  Python's
in-place mutation is modelled by explicit state passing: every method
that mutates an object returns the updated object together with the
value the Python method returns.  Python's stable `sorted` is modelled
by `List.insertionSort` with the corresponding non-strict comparator
(any stable sort computes the same list).
-/

/-- Fee: tiered servicing/admin fee accrual against pool balance
(class `Fee` in the source). -/
structure Fee where
  name : String
  base_rate : ℚ
  priority : ℤ
  tier_schedule : List (ℕ × ℕ × ℚ)
  accrued : ℚ
deriving DecidableEq

/-- Fee constructor (`Fee.__init__` with `accrued = 0`). -/
def Fee.new (name : String) (base_rate : ℚ) (priority : ℤ)
    (tier_schedule : List (ℕ × ℕ × ℚ)) : Fee :=
  ⟨name, base_rate, priority, tier_schedule, 0⟩

/-- Rate of the first tier whose inclusive range contains `period`;
falls back to `base_rate` (`Fee.get_rate`; `pool_balance` is an unused
parameter, exactly as in the source). -/
def Fee.get_rate (f : Fee) (period : ℕ) (pool_balance : ℚ) : ℚ :=
  match f.tier_schedule.find? (fun s => s.1 ≤ period && period ≤ s.2.1) with
  | some s => s.2.2
  | none => f.base_rate

/-- Computes the period fee `pool_balance * rate / 12` and accumulates it
into `accrued` (`Fee.calculate`).  Returns (fee, updated fee object). -/
def Fee.calculate (f : Fee) (pool_balance : ℚ) (period : ℕ) : ℚ × Fee :=
  let fee := pool_balance * f.get_rate period pool_balance / 12
  (fee, { f with accrued := f.accrued + fee })

/-- IFRS/EIR impairment account (class `IFRSAccount` in the source). -/
structure IFRSAccount where
  eir : ℚ
  gross_carrying : ℚ
  stage : ℤ
  impairment : ℚ
  interest_income : ℚ
deriving DecidableEq

/-- Accrues `gross_carrying * eir / 12` into `interest_income`
(`IFRSAccount.accrue_interest`). -/
def IFRSAccount.accrue_interest (a : IFRSAccount) : ℚ × IFRSAccount :=
  let interest := a.gross_carrying * a.eir / 12
  (interest, { a with interest_income := a.interest_income + interest })

/-- Adds a stage-dependent fraction of `expected_loss` to the cumulative
impairment; any stage outside 1/2/3 falls through all branches and
changes nothing.  Returns (cumulative impairment, updated account)
(`IFRSAccount.recognize_impairment`). -/
def IFRSAccount.recognize_impairment (a : IFRSAccount) (expected_loss : ℚ) :
    ℚ × IFRSAccount :=
  let a' :=
    if a.stage = 1 then { a with impairment := a.impairment + expected_loss * (1 / 100) }
    else if a.stage = 2 then { a with impairment := a.impairment + expected_loss * (3 / 100) }
    else if a.stage = 3 then { a with impairment := a.impairment + expected_loss }
    else a
  (a'.impairment, a')

/-- Unvalidated overwrite of the stage (`IFRSAccount.move_stage`). -/
def IFRSAccount.move_stage (a : IFRSAccount) (stage : ℤ) : IFRSAccount :=
  { a with stage := stage }

/-- Amortizing loan (class `Loan` in the source). -/
structure Loan where
  principal : ℚ
  rate : ℚ
  term : ℕ
  remaining_principal : ℚ
  active : Bool
deriving DecidableEq

/-- Loan constructor (`Loan.__init__`). -/
def Loan.new (principal rate : ℚ) (term : ℕ) : Loan :=
  ⟨principal, rate, term, principal, true⟩

/-- Level-payment annuity amount; linear amortization when the monthly
rate is zero (`Loan.monthly_payment`). -/
def Loan.monthly_payment (l : Loan) : ℚ :=
  let r := l.rate / 12
  let n := l.term
  if r = 0 then l.principal / n
  else l.principal * (r * (1 + r) ^ n) / ((1 + r) ^ n - 1)

/-- Cash-flow decomposition returned by `Loan.step`. -/
structure LoanCF where
  interest : ℚ
  principal : ℚ
  prepayment : ℚ
  default : ℚ
  cashflow : ℚ
  remaining_principal : ℚ
deriving DecidableEq

/-- The source's `1e-8` zero-balance threshold. -/
def eps : ℚ := 1 / 100000000

/-- One monthly step of a loan (`Loan.step`): no-op if inactive or
non-positive balance; otherwise computes the decomposition, reduces the
balance (never below zero) and deactivates the loan when the balance
falls under the threshold. -/
def Loan.step (l : Loan) (prepay_rate default_rate : ℚ) : LoanCF × Loan :=
  if l.active = false ∨ l.remaining_principal ≤ 0 then
    (⟨0, 0, 0, 0, 0, 0⟩, l)
  else
    let payment := l.monthly_payment
    let interest := l.remaining_principal * l.rate / 12
    let principal := payment - interest
    let prepayment := prepay_rate * l.remaining_principal
    let default := default_rate * l.remaining_principal
    let total_principal := min l.remaining_principal (principal + prepayment + default)
    let cashflow := interest + total_principal
    let rem := l.remaining_principal - total_principal
    if rem < eps then
      (⟨interest, principal, prepayment, default, cashflow, 0⟩,
       { l with remaining_principal := 0, active := false })
    else
      (⟨interest, principal, prepayment, default, cashflow, rem⟩,
       { l with remaining_principal := rem })

/-- Note tranche with its owned impairment account (class `Tranche`). -/
structure Tranche where
  name : String
  principal : ℚ
  rate : ℚ
  remaining_principal : ℚ
  subordination_level : ℤ
  ifrs : IFRSAccount
  interest_due : ℚ
  interest_paid : ℚ
  principal_paid : ℚ
  losses : ℚ
deriving DecidableEq

/-- Tranche constructor (`Tranche.__init__`); the Python expression
`eir or rate` treats both `None` and `0` as absent. -/
def Tranche.new (name : String) (principal rate : ℚ) (subordination_level : ℤ)
    (eir : Option ℚ) : Tranche :=
  let e := match eir with
    | none => rate
    | some e => if e = 0 then rate else e
  ⟨name, principal, rate, principal, subordination_level,
   ⟨e, principal, 1, 0, 0⟩, 0, 0, 0, 0⟩

/-- Pays `min(interest due, cash)` of coupon interest, records due/paid,
and unconditionally accrues EIR income (`Tranche.pay_interest`). -/
def Tranche.pay_interest (t : Tranche) (cash_available : ℚ) : ℚ × Tranche :=
  let interest := t.remaining_principal * t.rate / 12
  let pay := min interest cash_available
  (pay, { t with interest_due := interest, interest_paid := pay,
                 ifrs := (t.ifrs.accrue_interest).2 })

/-- Pays `min(remaining, cash)` of principal and synchronizes the
impairment account's gross carrying amount (`Tranche.pay_principal`). -/
def Tranche.pay_principal (t : Tranche) (cash_available : ℚ) : ℚ × Tranche :=
  let pay := min t.remaining_principal cash_available
  let rem := t.remaining_principal - pay
  (pay, { t with principal_paid := pay, remaining_principal := rem,
                 ifrs := { t.ifrs with gross_carrying := rem } })

/-- Absorbs `min(remaining, loss)`, moves to stage 3 when the absorption
is positive, recognizes impairment, and returns the residual loss
(`Tranche.allocate_loss`).  Note: the source does not update
`ifrs.gross_carrying` here. -/
def Tranche.allocate_loss (t : Tranche) (loss : ℚ) (period : ℕ) : ℚ × Tranche :=
  let applied := min t.remaining_principal loss
  let ifrs1 := if 0 < applied then t.ifrs.move_stage 3 else t.ifrs
  let ifrs2 := (ifrs1.recognize_impairment applied).2
  (loss - applied,
   { t with losses := t.losses + applied,
            remaining_principal := t.remaining_principal - applied,
            ifrs := ifrs2 })

/-- Liquidity reserve (class `ReserveAccount`). -/
structure ReserveAccount where
  target : ℚ
  balance : ℚ
deriving DecidableEq

/-- Adds `min(cash, target - balance)` and returns the amount added
(`ReserveAccount.fill`). -/
def ReserveAccount.fill (r : ReserveAccount) (cash_available : ℚ) :
    ℚ × ReserveAccount :=
  let to_fill := r.target - r.balance
  let added := min cash_available to_fill
  (added, { r with balance := r.balance + added })

/-- Withdraws `min(balance, amount)` (`ReserveAccount.withdraw`;
present but unused by the driver). -/
def ReserveAccount.withdraw (r : ReserveAccount) (amount : ℚ) :
    ℚ × ReserveAccount :=
  let taken := min r.balance amount
  (taken, { r with balance := r.balance - taken })

/-- Early-redemption option (class `CallableOption`). -/
structure CallableOption where
  call_period : ℕ
  call_price_pct : ℚ
  called : Bool
deriving DecidableEq

/-- Sticky call check: latches `called` once `period >= call_period` and
`pool_balance < call_trigger` (`CallableOption.check_call`). -/
def CallableOption.check_call (c : CallableOption) (period : ℕ)
    (pool_balance call_trigger : ℚ) : Bool × CallableOption :=
  let c' := if c.call_period ≤ period ∧ pool_balance < call_trigger then
      { c with called := true }
    else c
  (c'.called, c')

/-- Values stored in a period record.  The exported date string is a
strictly increasing function of the absolute month index, so a date is
represented by that index (`today`'s month plus the period offset). -/
inductive Val where
  | num : ℚ → Val
  | date : ℕ → Val
  | bool : Bool → Val
  | dict : List (String × ℚ) → Val
deriving DecidableEq

/-- A period record: the Python dict in insertion order. -/
abbrev Record := List (String × Val)

/-- Python's stable sort of fees ascending by priority. -/
def sortFeesByPriority (fees : List Fee) : List Fee :=
  List.insertionSort (fun a b => a.priority ≤ b.priority) fees

/-- Python's stable sort of tranches ascending by subordination level. -/
def sortBySubAsc (ts : List Tranche) : List Tranche :=
  List.insertionSort (fun a b => a.subordination_level ≤ b.subordination_level) ts

/-- Python's stable sort of tranches by the key `-subordination_level`,
i.e. descending by subordination level. -/
def sortBySubDesc (ts : List Tranche) : List Tranche :=
  List.insertionSort (fun a b => b.subordination_level ≤ a.subordination_level) ts

/-- Step 1 of the waterfall: pays each (already priority-sorted) fee
`min(entitlement, remaining interest cash)` and decrements the shared
interest cash.  Returns the `fees_paid` entries and the remaining cash. -/
def feeRun (pool_balance : ℚ) (period : ℕ) : List Fee → ℚ → List (String × ℚ) × ℚ
  | [], cash => ([], cash)
  | f :: fs, cash =>
    let pay := min (f.calculate pool_balance period).1 cash
    let rest := feeRun pool_balance period fs (cash - pay)
    ((f.name, pay) :: rest.1, rest.2)

/-- Step 2 of the waterfall: each (already seniority-sorted) tranche pays
interest from the shared decrementing interest cash pool.  Returns the
updated tranches in iteration order, the result entries, and the
remaining cash. -/
def interestRun : List Tranche → ℚ → List Tranche × List (String × ℚ) × ℚ
  | [], cash => ([], [], cash)
  | t :: ts, cash =>
    let p := t.pay_interest cash
    let rest := interestRun ts (cash - p.1)
    (p.2 :: rest.1, (t.name ++ "_interest_paid", p.1) :: rest.2.1, rest.2.2)

/-- Step 3 of the waterfall before the pro-rata start (sequential/turbo):
each (already seniority-sorted) tranche draws principal from the shared
decrementing principal cash pool. -/
def seqPrincipalRun : List Tranche → ℚ → List Tranche × List (String × ℚ) × ℚ
  | [], cash => ([], [], cash)
  | t :: ts, cash =>
    let p := t.pay_principal cash
    let rest := seqPrincipalRun ts (cash - p.1)
    (p.2 :: rest.1, (t.name ++ "_principal_paid", p.1) :: rest.2.1, rest.2.2)

/-- The pro-rata branch's payment for one tranche: the remaining cash
pool times the tranche's share of `total_outstanding` (zero share when
the total is not positive), clamped to the tranche's balance and to the
remaining cash, floored at zero. -/
def proRataPay (total_outstanding cash : ℚ) (t : Tranche) : ℚ :=
  let share := if 0 < total_outstanding then t.remaining_principal / total_outstanding else 0
  max (min (min (cash * share) t.remaining_principal) cash) 0

/-- Step 3 of the waterfall at/after the pro-rata start: tranches in
their original order draw their pro-rata payment from the shared
decrementing principal cash pool (`total_outstanding` was computed once
before the step). -/
def proRataRun (total_outstanding : ℚ) :
    List Tranche → ℚ → List Tranche × List (String × ℚ) × ℚ
  | [], cash => ([], [], cash)
  | t :: ts, cash =>
    let pay := proRataPay total_outstanding cash t
    let t' := (t.pay_principal pay).2
    let rest := proRataRun total_outstanding ts (cash - pay)
    (t' :: rest.1, (t.name ++ "_principal_paid", pay) :: rest.2.1, rest.2.2)

/-- Step 4 of the waterfall: the residual loss cascades through the
(already junior-first-sorted) tranches via `allocate_loss`; the result
entries report each tranche's post-allocation cumulative losses. -/
def lossRun (period : ℕ) : List Tranche → ℚ → List Tranche × List (String × ℚ) × ℚ
  | [], losses => ([], [], losses)
  | t :: ts, losses =>
    let p := t.allocate_loss losses period
    let rest := lossRun period ts p.1
    (p.2 :: rest.1, (t.name ++ "_losses", p.2.losses) :: rest.2.1, rest.2.2)

/-- Restores the caller's list order after a sorted-order pass: each
tranche (identified by its name, assumed unique in a configuration) is
replaced by its processed version.  This models Python's in-place
mutation of the objects that the sorted view aliases. -/
def restoreOrder (ts processed : List Tranche) : List Tranche :=
  ts.map (fun t => (processed.find? (fun u => u.name == t.name)).getD t)

/-- Everything the `waterfall` function produces: the Python return pair
(`results`, leftover `cash_principal`) plus the in-place mutations of
tranches, reserve and fees. -/
structure WaterfallResult where
  results : Record
  leftover_principal : ℚ
  tranches : List Tranche
  reserve : ReserveAccount
  fees : List Fee
deriving DecidableEq

/-- The waterfall engine (`waterfall` in the source): fees by priority,
tranche interest by seniority, principal sequentially or pro-rata,
losses junior first, then the reserve is offered the remaining interest
plus principal cash.  Returns the results mapping in Python's dict
insertion order and the leftover `cash_principal` (which the source does
NOT reduce by the reserve fill).  The unused `triggers` and
`turbo_redemption` parameters are kept from the source signature. -/
def waterfall (tranches : List Tranche) (reserve : ReserveAccount) (fees : List Fee)
    (total_interest total_principal total_losses : ℚ) (triggers : Option ℚ)
    (pool_balance : ℚ) (period : ℕ) (pro_rata_start : ℕ) (turbo_redemption : Bool) :
    WaterfallResult :=
  let fr := feeRun pool_balance period (sortFeesByPriority fees) total_interest
  let fees' := fees.map (fun f => (f.calculate pool_balance period).2)
  let ir := interestRun (sortBySubAsc tranches) fr.2
  let tranches1 := restoreOrder tranches ir.1
  let pr :=
    if period < pro_rata_start then
      let s := seqPrincipalRun (sortBySubAsc tranches1) total_principal
      (restoreOrder tranches1 s.1, s.2.1, s.2.2)
    else
      let total_outstanding := (tranches1.map (fun t => t.remaining_principal)).sum
      proRataRun total_outstanding tranches1 total_principal
  let lr := lossRun period (sortBySubDesc pr.1) total_losses
  let tranches3 := restoreOrder pr.1 lr.1
  let rf := reserve.fill (ir.2.2 + pr.2.2)
  let results : Record :=
    ("fees_paid", Val.dict fr.1)
      :: (ir.2.1 ++ pr.2.1 ++ lr.2.1).map (fun e => (e.1, Val.num e.2))
      ++ [("reserve_fill", Val.num rf.1)]
  ⟨results, pr.2.2, tranches3, rf.2, fees'⟩

/-- Scenario and structural parameters of `simulate_abs` (the function
arguments other than the mutable entities). -/
structure SimConfig where
  periods : ℕ
  loan_rate : ℚ
  loan_term : ℕ
  cpr : ℚ
  cdr : ℚ
  lgd : ℚ
  turbo_redemption : Bool
  pro_rata_start : ℕ
deriving DecidableEq

/-- The mutable entities owned by the simulation driver. -/
structure SimState where
  pool : List Loan
  tranches : List Tranche
  reserve : ReserveAccount
  fees : List Fee
  callable_opt : Option CallableOption
deriving DecidableEq

/-- Pool aggregation at the top of each period of `simulate_abs`:
steps every loan and accumulates the pool-level totals, then computes
the pool and notes balances. -/
structure PoolTotals where
  pool1 : List Loan
  total_interest : ℚ
  total_principal : ℚ
  total_prepayment : ℚ
  total_default : ℚ
  total_losses : ℚ
  pool_balance : ℚ
  notes_balance : ℚ
deriving DecidableEq

/-- Aggregates one period's loan cash flows (the `for loan in pool` loop
of `simulate_abs` followed by the two balance sums). -/
def poolAggregate (cfg : SimConfig) (st : SimState) : PoolTotals :=
  let stepped := st.pool.map (fun l => l.step (cfg.cpr / 12) (cfg.cdr / 12))
  let pool1 := stepped.map (fun p => p.2)
  let cfs := stepped.map (fun p => p.1)
  { pool1 := pool1
    total_interest := (cfs.map (fun c => c.interest)).sum
    total_principal := (cfs.map (fun c => c.principal + c.prepayment)).sum
    total_prepayment := (cfs.map (fun c => c.prepayment)).sum
    total_default := (cfs.map (fun c => c.default)).sum
    total_losses := (cfs.map (fun c => c.default * cfg.lgd)).sum
    pool_balance := (pool1.map (fun l => l.remaining_principal)).sum
    notes_balance := (st.tranches.map (fun t => t.remaining_principal)).sum }

/-- The reinvestment loop's loan size (`loan_size = 100000`). -/
def loan_size : ℚ := 100000

/-- Number of iterations of the `while leftover_principal >= loan_size`
reinvestment loop: the loop decrements a constant amount each pass, so
it runs `floor(leftover / loan_size)` times (zero for negative cash). -/
def reinvestCount (leftover : ℚ) : ℕ :=
  ((leftover / loan_size).floor).toNat

/-- The non-call part of one period of `simulate_abs`: waterfall,
reinvestment, and the tail of the period record after the pool totals
(waterfall results, reinvested principal, per-tranche and per-fee
reporting, reserve and pool balances).  Returns the record tail, the
updated state, and the `all tranches paid off` early-exit flag. -/
def regularStep (cfg : SimConfig) (t : ℕ) (st : SimState) (agg : PoolTotals) :
    Record × SimState × Bool :=
  let wf := waterfall st.tranches st.reserve st.fees agg.total_interest
    agg.total_principal agg.total_losses none agg.pool_balance (t + 1)
    cfg.pro_rata_start cfg.turbo_redemption
  let k := if t + 1 < cfg.pro_rata_start then reinvestCount wf.leftover_principal else 0
  let pool2 := agg.pool1 ++ List.replicate k (Loan.new loan_size cfg.loan_rate cfg.loan_term)
  let leftover := wf.leftover_principal - k * loan_size
  let trancheRec : Record :=
    (wf.tranches.map (fun tr =>
      [(tr.name ++ "_outstanding", Val.num tr.remaining_principal),
       (tr.name ++ "_ifrs_interest_income", Val.num tr.ifrs.interest_income),
       (tr.name ++ "_ifrs_impairment", Val.num tr.ifrs.impairment),
       (tr.name ++ "_stage", Val.num tr.ifrs.stage)])).flatten
  let feeRec : Record := wf.fees.map (fun f => (f.name ++ "_accrued", Val.num f.accrued))
  let tail : Record :=
    wf.results
      ++ [("reinvested_principal", Val.num (agg.total_principal - leftover))]
      ++ trancheRec ++ feeRec
      ++ [("reserve_balance", Val.num wf.reserve.balance),
          ("pool_balance", Val.num agg.pool_balance)]
  let stop := wf.tranches.all (fun tr => |tr.remaining_principal| < eps)
  (tail,
   { pool := pool2, tranches := wf.tranches, reserve := wf.reserve,
     fees := wf.fees, callable_opt := st.callable_opt },
   stop)

/-- One period of `simulate_abs` without the `month`/`date` entries:
pool aggregation, the callable-feature branch (which redeems every
tranche at the call price and terminates), or the regular waterfall
period.  Returns the record entries after `month`/`date`, the updated
state, and whether the simulation stops after this period. -/
def simStepRest (cfg : SimConfig) (t : ℕ) (st : SimState) :
    Record × SimState × Bool :=
  let agg := poolAggregate cfg st
  let totalsRec : Record :=
    [("total_interest", Val.num agg.total_interest),
     ("total_principal", Val.num agg.total_principal),
     ("total_prepayment", Val.num agg.total_prepayment),
     ("total_default", Val.num agg.total_default),
     ("total_losses", Val.num agg.total_losses)]
  let r : Record × SimState × Bool :=
    match st.callable_opt with
    | some c0 =>
      let cc := c0.check_call (t + 1) agg.pool_balance (5 / 100 * agg.notes_balance)
      if cc.1 then
        let reds := st.tranches.map (fun tr =>
          let pay := tr.remaining_principal * cc.2.call_price_pct
          ((tr.name ++ "_call_redemption", Val.num pay), (tr.pay_principal pay).2))
        (reds.map (fun p => p.1) ++ [("called", Val.bool true)],
         { pool := agg.pool1, tranches := reds.map (fun p => p.2),
           reserve := st.reserve, fees := st.fees, callable_opt := some cc.2 },
         true)
      else
        regularStep cfg t { st with callable_opt := some cc.2 } agg
    | none => regularStep cfg t st agg
  (totalsRec ++ r.1, r.2.1, r.2.2)

/-- One full period of `simulate_abs`: the record starts with the month
index and the run date shifted by the period offset; everything else is
independent of the run date. -/
def simStep (cfg : SimConfig) (today t : ℕ) (st : SimState) :
    Record × SimState × Bool :=
  let r := simStepRest cfg t st
  (("month", Val.num (t + 1)) :: ("date", Val.date (today + t)) :: r.1, r.2.1, r.2.2)

/-- The period loop of `simulate_abs` (`for t in range(periods)` with the
two `break` statements folded into the stop flag). -/
def simLoop (cfg : SimConfig) (today : ℕ) : ℕ → ℕ → SimState → List Record
  | _, 0, _ => []
  | t, fuel + 1, st =>
    let r := simStep cfg today t st
    r.1 :: (if r.2.2 then [] else simLoop cfg today (t + 1) fuel r.2.1)

/-- The simulation driver (`simulate_abs`): produces the ordered period
record history.  The run date (`datetime.today()`, represented by its
month index) is an explicit parameter; the CSV/Excel export is outside
the core. -/
def simulate_abs (cfg : SimConfig) (today : ℕ) (st : SimState) : List Record :=
  simLoop cfg today 0 cfg.periods st

/-- Iterated reserve filling: a sequence of `fill` calls with the given
cash offers (used to express the boundary behaviour of a full reserve). -/
def fillSeq (r : ReserveAccount) (cs : List ℚ) : ReserveAccount :=
  cs.foldl (fun a c => (a.fill c).2) r

/-- The residual loss entering each tranche of the loss-allocation step,
in iteration order (the threaded value of `lossRun`). -/
def lossResiduals (period : ℕ) : List Tranche → ℚ → List ℚ
  | [], _ => []
  | t :: ts, r => r :: lossResiduals period ts (t.allocate_loss r period).1

/-- The principal cash pool remaining as each tranche of the pro-rata
step is visited, in iteration order (the threaded value of
`proRataRun`). -/
def proRataCashes (total_outstanding : ℚ) : List Tranche → ℚ → List ℚ
  | [], _ => []
  | t :: ts, cash =>
    cash :: proRataCashes total_outstanding ts (cash - proRataPay total_outstanding cash t)

/-- Modelled from the claim's wording for the pro-rata branch: the
payment is the TOTAL principal cash of the period times the tranche's
share of total outstanding balance, clamped to the tranche's balance and
to the remaining cash pool, floored at zero.  Kept separate from the
source's `proRataPay` (which multiplies the REMAINING cash pool) so the
two can be compared. -/
def proRataSpecPay (total_cash share balance cash_remaining : ℚ) : ℚ :=
  max (min (min (total_cash * share) balance) cash_remaining) 0

/-- Drops the `date` entry of a period record (the only entry that
depends on the wall-clock run date). -/
def eraseDate (r : Record) : Record :=
  r.filter (fun p => p.1 != "date")

/-- Concrete tranche for the C1 scenario: 100 outstanding, stage 1. -/
def tC1 : Tranche := Tranche.new "A" 100 (6 / 100) 1 none

/-- Concrete waterfall invocation for the C2 scenario: a fully repaid
tranche, no fees, 100 of principal cash, an empty reserve with target
100. -/
def wfC2 : WaterfallResult :=
  waterfall [Tranche.new "A" 0 (6 / 100) 1 none] ⟨100, 0⟩ [] 0 100 0 none 0 1 36 true

/-- Concrete configuration shared by the C3 and C4 scenarios. -/
def cfgSmall : SimConfig := ⟨4, 5 / 100, 360, 0, 0, 1, true, 36⟩

/-- C3 scenario, call branch: empty pool (balance 0 is below 5% of the
notes), callable from period 1 at par. -/
def stC3call : SimState :=
  ⟨[], [Tranche.new "A" 100 0 1 none], ⟨0, 0⟩, [], some ⟨1, 1, false⟩⟩

/-- C3 scenario, regular branch: same structure but callable only from
period 100, so period 1 is a regular waterfall period. -/
def stC3reg : SimState :=
  ⟨[], [Tranche.new "A" 100 0 1 none], ⟨0, 0⟩, [], some ⟨100, 1, false⟩⟩

/-- C4 scenario: one tranche, empty pool, no callable option. -/
def stC4 : SimState := ⟨[], [Tranche.new "A" 100 0 1 none], ⟨0, 0⟩, [], none⟩

/-- Concrete loan for the C8 witness. -/
def lC8 : Loan := Loan.new 100000 (5 / 100) 360

/-- A single fill of a reserve already at its target adds nothing and
leaves the account unchanged. -/
theorem fill_at_target (r : ReserveAccount) (c : ℚ) (hc : 0 ≤ c)
    (hb : r.balance = r.target) : (r.fill c).1 = 0 ∧ (r.fill c).2 = r := by
  have h : min c (r.target - r.balance) = 0 := by
    rw [hb, sub_self]; exact min_eq_right hc
  refine ⟨by simp [ReserveAccount.fill, h], ?_⟩
  simp [ReserveAccount.fill, h]

/-- Any sequence of nonnegative fills of a reserve already at its target
leaves the account unchanged. -/
theorem fillSeq_at_target (cs : List ℚ) : ∀ r : ReserveAccount, (∀ c ∈ cs, 0 ≤ c) →
    r.balance = r.target → fillSeq r cs = r := by
  induction cs with
  | nil => intro r _ _; rfl
  | cons c cs ih =>
    intro r hnn hb
    have step := (fill_at_target r c (hnn c (by simp)) hb).2
    show fillSeq (r.fill c).2 cs = r
    rw [step]
    exact ih r (fun x hx => hnn x (by simp [hx])) hb

/-- C9: with 0 ≤ balance ≤ target and nonnegative cash, `fill` adds
exactly min(cash, target − balance), which is nonnegative and bounded by
the headroom; the balance grows by the amount added and stays at most
the target; once the balance equals the target, a fill (and any sequence
of nonnegative fills) returns 0 and leaves the account unchanged. -/
theorem C9_reserve_fill_clamps (r : ReserveAccount) (cash : ℚ)
    (h0 : 0 ≤ r.balance) (h1 : r.balance ≤ r.target) (hc : 0 ≤ cash) :
    (r.fill cash).1 = min cash (r.target - r.balance) ∧
    0 ≤ (r.fill cash).1 ∧
    (r.fill cash).1 ≤ r.target - r.balance ∧
    (r.fill cash).2.balance = r.balance + (r.fill cash).1 ∧
    (r.fill cash).2.balance ≤ r.target ∧
    (r.balance = r.target → (r.fill cash).1 = 0 ∧ (r.fill cash).2 = r) ∧
    (∀ cs : List ℚ, (∀ c ∈ cs, 0 ≤ c) → r.balance = r.target → fillSeq r cs = r) := by
  have hmin : (r.fill cash).1 = min cash (r.target - r.balance) := rfl
  have hnn : 0 ≤ (r.fill cash).1 := by
    rw [hmin]; exact le_min hc (by linarith)
  have hhead : (r.fill cash).1 ≤ r.target - r.balance := by
    rw [hmin]; exact min_le_right _ _
  refine ⟨hmin, hnn, hhead, rfl, by
    have : (r.fill cash).2.balance = r.balance + (r.fill cash).1 := rfl
    linarith, fun hb => fill_at_target r cash hc hb,
    fun cs hcs hb => fillSeq_at_target cs r hcs hb⟩

/-- Witness for C9 at a concrete reserve (target 100, balance 40,
cash 25). -/
theorem C9_reserve_fill_clamps_witness :
    (0:ℚ) ≤ 40 ∧ (40:ℚ) ≤ 100 ∧ (0:ℚ) ≤ 25 ∧
    (((⟨100, 40⟩ : ReserveAccount).fill 25).1 = min 25 (100 - 40) ∧
     0 ≤ ((⟨100, 40⟩ : ReserveAccount).fill 25).1 ∧
     ((⟨100, 40⟩ : ReserveAccount).fill 25).1 ≤ 100 - 40 ∧
     ((⟨100, 40⟩ : ReserveAccount).fill 25).2.balance = 40 + ((⟨100, 40⟩ : ReserveAccount).fill 25).1 ∧
     ((⟨100, 40⟩ : ReserveAccount).fill 25).2.balance ≤ 100 ∧
     ((40:ℚ) = 100 → ((⟨100, 40⟩ : ReserveAccount).fill 25).1 = 0 ∧
        ((⟨100, 40⟩ : ReserveAccount).fill 25).2 = ⟨100, 40⟩) ∧
     (∀ cs : List ℚ, (∀ c ∈ cs, 0 ≤ c) → (40:ℚ) = 100 →
        fillSeq (⟨100, 40⟩ : ReserveAccount) cs = ⟨100, 40⟩)) :=
  ⟨by norm_num, by norm_num, by norm_num,
   C9_reserve_fill_clamps ⟨100, 40⟩ 25 (by norm_num) (by norm_num) (by norm_num)⟩

/-- C10: an impairment account whose stage is outside {1,2,3} (reachable
because `move_stage` overwrites the stage with any caller-supplied value
without validation) is left entirely unchanged by
`recognize_impairment`, which silently returns the existing cumulative
impairment instead of raising an error. -/
theorem C10_invalid_stage_silent (a : IFRSAccount) (el : ℚ) (s : ℤ)
    (h1 : a.stage ≠ 1) (h2 : a.stage ≠ 2) (h3 : a.stage ≠ 3) :
    (a.recognize_impairment el).2 = a ∧
    (a.recognize_impairment el).1 = a.impairment ∧
    (a.move_stage s).stage = s := by
  refine ⟨?_, ?_, rfl⟩ <;>
    simp [IFRSAccount.recognize_impairment, h1, h2, h3]

/-- Witness for C10 at a concrete account with (invalid) stage 7. -/
theorem C10_invalid_stage_silent_witness :
    ((⟨1/10, 100, 7, 2, 3⟩ : IFRSAccount).recognize_impairment 40).2 = ⟨1/10, 100, 7, 2, 3⟩ ∧
    ((⟨1/10, 100, 7, 2, 3⟩ : IFRSAccount).recognize_impairment 40).1 = (2:ℚ) ∧
    ((⟨1/10, 100, 7, 2, 3⟩ : IFRSAccount).move_stage 5).stage = 5 :=
  C10_invalid_stage_silent ⟨1/10, 100, 7, 2, 3⟩ 40 5
    (by decide) (by decide) (by decide)

/-- C8: for a loan with a positive term and nonnegative rate,
`monthly_payment` is the level-payment annuity amount with monthly rate
r = rate/12 and n = the loan's term field (the loan never tracks a
separate elapsed counter, so this field is its remaining term): at rate
zero the guard returns principal/n, and whenever the annuity branch is
taken its denominator (1+r)^n − 1 is nonzero, so the division-by-zero
case is unreachable. -/
theorem C8_monthly_payment_formula (l : Loan) (hn : 1 ≤ l.term) (hr : 0 ≤ l.rate) :
    (l.rate = 0 → l.monthly_payment = l.principal / l.term) ∧
    (l.rate ≠ 0 →
      (1 + l.rate / 12) ^ l.term - 1 ≠ 0 ∧
      l.monthly_payment * ((1 + l.rate / 12) ^ l.term - 1)
        = l.principal * (l.rate / 12 * (1 + l.rate / 12) ^ l.term)) := by
  constructor
  · intro h0
    simp [Loan.monthly_payment, h0]
  · intro hne
    have hr12 : l.rate / 12 ≠ 0 := div_ne_zero hne (by norm_num)
    have hpos : (0:ℚ) < l.rate := lt_of_le_of_ne hr (Ne.symm hne)
    have h1r : (1:ℚ) < 1 + l.rate / 12 := by
      have : (0:ℚ) < l.rate / 12 := div_pos hpos (by norm_num)
      linarith
    have hpow : (1:ℚ) < (1 + l.rate / 12) ^ l.term :=
      one_lt_pow₀ h1r (by omega)
    have hden : (1 + l.rate / 12) ^ l.term - 1 ≠ 0 := by
      intro h; rw [sub_eq_zero] at h; exact absurd h (ne_of_gt hpow)
    refine ⟨hden, ?_⟩
    rw [Loan.monthly_payment]
    simp only [hr12, if_false]
    exact div_mul_cancel₀ _ hden

/-- Witness for C8 at a concrete loan (100000 at 5% for 360 months). -/
theorem C8_monthly_payment_formula_witness :
    1 ≤ lC8.term ∧ (0:ℚ) ≤ lC8.rate ∧
    ((lC8.rate = 0 → lC8.monthly_payment = lC8.principal / lC8.term) ∧
     (lC8.rate ≠ 0 →
       (1 + lC8.rate / 12) ^ lC8.term - 1 ≠ 0 ∧
       lC8.monthly_payment * ((1 + lC8.rate / 12) ^ lC8.term - 1)
         = lC8.principal * (lC8.rate / 12 * (1 + lC8.rate / 12) ^ lC8.term))) :=
  ⟨by decide, by norm_num [lC8, Loan.new],
   C8_monthly_payment_formula lC8 (by decide) (by norm_num [lC8, Loan.new])⟩

/-- C1: `pay_principal` does keep the impairment account's gross
carrying amount equal to the tranche's remaining principal, but
`allocate_loss` does not: after a 40 loss on a 100-balance tranche the
remaining principal is 60 while the gross carrying amount stays 100, so
the synchronization invariant fails after a loss allocation. -/
theorem C1_allocate_loss_desync :
    (∀ (t : Tranche) (cash : ℚ),
       (t.pay_principal cash).2.ifrs.gross_carrying
         = (t.pay_principal cash).2.remaining_principal) ∧
    (tC1.allocate_loss 40 1).2.remaining_principal = 60 ∧
    (tC1.allocate_loss 40 1).2.ifrs.gross_carrying = 100 ∧
    (tC1.allocate_loss 40 1).2.ifrs.gross_carrying
      ≠ (tC1.allocate_loss 40 1).2.remaining_principal := by
  refine ⟨fun t cash => rfl, ?_, ?_, ?_⟩ <;>
    norm_num [tC1, Tranche.new, Tranche.allocate_loss, IFRSAccount.move_stage,
      IFRSAccount.recognize_impairment]

/-- C2: the waterfall double-counts principal cash.  In the concrete
invocation `wfC2` (no fees, one fully repaid tranche, 0 interest cash,
100 principal cash, an empty reserve with target 100) nothing is paid in
steps 1-4, the reserve then absorbs the full 100 of principal cash, yet
the function still returns the same 100 as leftover principal for
reinvestment: fees + interest + principal + reserve fill + leftover =
200 > 100 = total cash, so the claimed no-double-allocation bound fails
(the source never subtracts the reserve fill from `cash_principal`). -/
theorem C2_reserve_double_counts_leftover :
    wfC2.leftover_principal = 100 ∧
    wfC2.reserve.balance = 100 ∧
    wfC2.results.lookup "reserve_fill" = some (Val.num 100) ∧
    wfC2.results.lookup "A_interest_paid" = some (Val.num 0) ∧
    wfC2.results.lookup "A_principal_paid" = some (Val.num 0) ∧
    wfC2.results.lookup "fees_paid" = some (Val.dict []) ∧
    ¬ (0 + 0 + 0 + 100 + wfC2.leftover_principal ≤ 0 + 100) := by
  norm_num [wfC2, waterfall, feeRun, interestRun, seqPrincipalRun, lossRun,
    restoreOrder, sortFeesByPriority, sortBySubAsc, sortBySubDesc,
    List.insertionSort, List.orderedInsert, Tranche.new, Tranche.pay_interest,
    Tranche.pay_principal, Tranche.allocate_loss, IFRSAccount.accrue_interest,
    IFRSAccount.move_stage, IFRSAccount.recognize_impairment,
    ReserveAccount.fill, List.lookup, List.find?]
  decide

/-- C7 counterexample: the pro-rata principal step (the `for tranche in
tranches` loop of the `else` branch of step 3, embedded as `proRataRun`)
with two tranches of 100 each, total outstanding 200 computed once, and
100 of principal cash pays tranche A 50 but tranche B only 25, because
the source multiplies the share by the REMAINING cash pool (50 when B is
visited, see `proRataCashes`), not by the period's total principal cash:
the claim's formula — total cash times share, clamped to the balance and
to the remaining pool — would give B
`proRataSpecPay 100 (100/200) 100 50 = 50 ≠ 25`. -/
theorem C7_prorata_share_counterexample :
    (proRataRun 200 [Tranche.new "A" 100 0 1 none, Tranche.new "B" 100 0 2 none] 100).2.1
      = [("A_principal_paid", 50), ("B_principal_paid", 25)] ∧
    proRataCashes 200 [Tranche.new "A" 100 0 1 none, Tranche.new "B" 100 0 2 none] 100
      = [100, 50] ∧
    proRataSpecPay 100 (100 / 200) 100 50 = 50 ∧
    ¬ ((25 : ℚ) = proRataSpecPay 100 (100 / 200) 100 50) := by
  refine ⟨?_, ?_, ?_, ?_⟩ <;>
    norm_num [proRataRun, proRataCashes, proRataPay, proRataSpecPay, Tranche.new,
      Tranche.pay_principal]
  decide

/-- The fee step pays each fee at most the remaining cash, so the shared
interest cash pool never becomes negative. -/
theorem feeRun_cash_nonneg (pool_balance : ℚ) (period : ℕ) (l : List Fee) :
    ∀ cash : ℚ, 0 ≤ cash → 0 ≤ (feeRun pool_balance period l cash).2 := by
  induction l with
  | nil => intro cash hc; exact hc
  | cons f fs ih =>
    intro cash hc
    have hpay : min (f.calculate pool_balance period).1 cash ≤ cash := min_le_right _ _
    exact ih _ (by linarith)

/-- The fee step's payments sum to the cash drawn from the pool. -/
theorem feeRun_sum (pool_balance : ℚ) (period : ℕ) (l : List Fee) :
    ∀ cash : ℚ,
      ((feeRun pool_balance period l cash).1.map Prod.snd).sum
        = cash - (feeRun pool_balance period l cash).2 := by
  induction l with
  | nil => intro cash; simp [feeRun]
  | cons f fs ih =>
    intro cash
    simp only [feeRun, List.map, List.sum_cons]
    rw [ih]
    ring

/-- The interest step pays each tranche at most the remaining cash, so
the shared interest cash pool never becomes negative. -/
theorem interestRun_cash_nonneg (l : List Tranche) :
    ∀ cash : ℚ, 0 ≤ cash → 0 ≤ (interestRun l cash).2.2 := by
  induction l with
  | nil => intro cash hc; exact hc
  | cons t ts ih =>
    intro cash hc
    have hpay : (t.pay_interest cash).1 ≤ cash := min_le_right _ _
    exact ih _ (by linarith)

/-- The interest step's payments sum to the cash drawn from the pool. -/
theorem interestRun_sum (l : List Tranche) :
    ∀ cash : ℚ,
      ((interestRun l cash).2.1.map Prod.snd).sum
        = cash - (interestRun l cash).2.2 := by
  induction l with
  | nil => intro cash; simp [interestRun]
  | cons t ts ih =>
    intro cash
    simp only [interestRun, List.map, List.sum_cons]
    rw [ih]
    ring

/-- C5: with nonnegative total interest cash (and the claim's
nonnegative fee entitlements and coupon rates), the fee step followed by
the interest step — composed exactly as steps 1-2 of `waterfall` — pays
out in total at most the period's interest cash, and the shared interest
cash accumulator is nonnegative after every prefix of either step;
moreover `waterfall` reports exactly the fee step's payments under the
`fees_paid` key. -/
theorem C5_interest_no_overdraft (tranches : List Tranche) (reserve : ReserveAccount)
    (fees : List Fee) (total_interest total_principal total_losses : ℚ)
    (triggers : Option ℚ) (pool_balance : ℚ) (period pro_rata_start : ℕ)
    (turbo_redemption : Bool)
    (hti : 0 ≤ total_interest)
    (hfees : ∀ f ∈ fees, 0 ≤ (f.calculate pool_balance period).1)
    (hrates : ∀ t ∈ tranches, 0 ≤ t.rate) :
    ((feeRun pool_balance period (sortFeesByPriority fees) total_interest).1.map Prod.snd).sum
      + ((interestRun (sortBySubAsc tranches)
          (feeRun pool_balance period (sortFeesByPriority fees) total_interest).2).2.1.map
            Prod.snd).sum
      ≤ total_interest ∧
    (∀ i : ℕ,
      0 ≤ (feeRun pool_balance period ((sortFeesByPriority fees).take i) total_interest).2) ∧
    (∀ j : ℕ,
      0 ≤ (interestRun ((sortBySubAsc tranches).take j)
            (feeRun pool_balance period (sortFeesByPriority fees) total_interest).2).2.2) ∧
    (waterfall tranches reserve fees total_interest total_principal total_losses
        triggers pool_balance period pro_rata_start turbo_redemption).results.lookup "fees_paid"
      = some (Val.dict
          (feeRun pool_balance period (sortFeesByPriority fees) total_interest).1) := by
  have hc1 : 0 ≤ (feeRun pool_balance period (sortFeesByPriority fees) total_interest).2 :=
    feeRun_cash_nonneg _ _ _ _ hti
  have hc2 : 0 ≤ (interestRun (sortBySubAsc tranches)
      (feeRun pool_balance period (sortFeesByPriority fees) total_interest).2).2.2 :=
    interestRun_cash_nonneg _ _ hc1
  refine ⟨?_, fun i => feeRun_cash_nonneg _ _ _ _ hti,
    fun j => interestRun_cash_nonneg _ _ hc1, rfl⟩
  rw [feeRun_sum, interestRun_sum]
  linarith

/-- Witness for C5: one tiered fee and two coupon-bearing tranches with
0.5 of interest cash (the concrete invocation evaluated in the running
example's shape). -/
theorem C5_interest_no_overdraft_witness :
    (0:ℚ) ≤ 1/2 ∧
    (∀ f ∈ [Fee.new "Srv" (5/1000) 1 [(1, 12, 5/1000)]], 0 ≤ (f.calculate 100 1).1) ∧
    (∀ t ∈ [Tranche.new "A" 80 (3/100) 1 (some (32/1000)),
            Tranche.new "B" 15 (6/100) 2 none], 0 ≤ t.rate) ∧
    (((feeRun 100 1 (sortFeesByPriority [Fee.new "Srv" (5/1000) 1 [(1, 12, 5/1000)]]) (1/2)).1.map
        Prod.snd).sum
      + ((interestRun (sortBySubAsc [Tranche.new "A" 80 (3/100) 1 (some (32/1000)),
            Tranche.new "B" 15 (6/100) 2 none])
          (feeRun 100 1 (sortFeesByPriority [Fee.new "Srv" (5/1000) 1 [(1, 12, 5/1000)]])
            (1/2)).2).2.1.map Prod.snd).sum
      ≤ 1/2 ∧
     (∀ i : ℕ,
       0 ≤ (feeRun 100 1 ((sortFeesByPriority [Fee.new "Srv" (5/1000) 1 [(1, 12, 5/1000)]]).take i)
             (1/2)).2) ∧
     (∀ j : ℕ,
       0 ≤ (interestRun ((sortBySubAsc [Tranche.new "A" 80 (3/100) 1 (some (32/1000)),
             Tranche.new "B" 15 (6/100) 2 none]).take j)
             (feeRun 100 1 (sortFeesByPriority [Fee.new "Srv" (5/1000) 1 [(1, 12, 5/1000)]])
               (1/2)).2).2.2) ∧
     (waterfall [Tranche.new "A" 80 (3/100) 1 (some (32/1000)),
          Tranche.new "B" 15 (6/100) 2 none] ⟨1, 0⟩
          [Fee.new "Srv" (5/1000) 1 [(1, 12, 5/1000)]] (1/2) 3 (1/5) none 100 1 36
          true).results.lookup "fees_paid"
       = some (Val.dict
           (feeRun 100 1 (sortFeesByPriority [Fee.new "Srv" (5/1000) 1 [(1, 12, 5/1000)]])
             (1/2)).1)) :=
  ⟨by norm_num,
   by intro f hf; simp at hf; subst hf; norm_num [Fee.calculate, Fee.get_rate, Fee.new],
   by intro t ht; simp at ht; rcases ht with h | h <;> subst h <;> norm_num [Tranche.new],
   C5_interest_no_overdraft _ ⟨1, 0⟩ _ (1/2) 3 (1/5) none 100 1 36 true
     (by norm_num)
     (by intro f hf; simp at hf; subst hf; norm_num [Fee.calculate, Fee.get_rate, Fee.new])
     (by intro t ht; simp at ht; rcases ht with h | h <;> subst h <;> norm_num [Tranche.new])⟩

/-- The loss step's updated tranches are exactly the original iteration
order zipped with the threaded residuals through `allocate_loss`. -/
theorem lossRun_zip (period : ℕ) (l : List Tranche) :
    ∀ L : ℚ,
      (lossRun period l L).1
        = List.zipWith (fun t r => (t.allocate_loss r period).2) l
            (lossResiduals period l L) := by
  induction l with
  | nil => intro L; rfl
  | cons t ts ih =>
    intro L
    simp only [lossRun, lossResiduals, List.zipWith]
    rw [ih]

/-- The residual loss stays between 0 and the initial loss. -/
theorem lossRun_residual_bounds (period : ℕ) (l : List Tranche) :
    ∀ L : ℚ, 0 ≤ L → (∀ t ∈ l, 0 ≤ t.remaining_principal) →
      0 ≤ (lossRun period l L).2.2 ∧ (lossRun period l L).2.2 ≤ L := by
  induction l with
  | nil => intro L hL _; exact ⟨hL, le_refl L⟩
  | cons t ts ih =>
    intro L hL hrem
    have happ0 : 0 ≤ min t.remaining_principal L :=
      le_min (hrem t (by simp)) hL
    have happL : min t.remaining_principal L ≤ L := min_le_right _ _
    have hres : (t.allocate_loss L period).1 = L - min t.remaining_principal L := rfl
    have := ih (t.allocate_loss L period).1 (by rw [hres]; linarith)
      (fun x hx => hrem x (by simp [hx]))
    refine ⟨this.1, ?_⟩
    have h2 := this.2
    rw [hres] at h2
    show (lossRun period ts (t.allocate_loss L period).1).2.2 ≤ L
    linarith

/-- Total losses booked on the tranches grow by exactly the absorbed
loss, the initial loss minus the final residual. -/
theorem lossRun_losses_sum (period : ℕ) (l : List Tranche) :
    ∀ L : ℚ,
      ((lossRun period l L).1.map (fun t => t.losses)).sum
        = (l.map (fun t => t.losses)).sum + (L - (lossRun period l L).2.2) := by
  induction l with
  | nil => intro L; simp [lossRun]
  | cons t ts ih =>
    intro L
    simp only [lossRun, List.map, List.sum_cons]
    rw [ih]
    have hl : (t.allocate_loss L period).2.losses
        = t.losses + min t.remaining_principal L := rfl
    have hres : (t.allocate_loss L period).1 = L - min t.remaining_principal L := rfl
    rw [hl, hres]
    ring

/-- C6: the loss step visits the tranches sorted descending by
subordination level (a permutation of the input, most junior first);
each visited tranche absorbs min(residual, its remaining principal),
adds exactly that amount to its cumulative losses and removes it from
its balance, moves to stage 3 when the absorption is positive, and
passes the reduced residual on; the updated tranches are the sorted list
zipped with the threaded residuals, the booked losses grow by the total
absorbed loss L − final residual, and with L ≥ 0 and nonnegative
balances the total absorbed is at most L. -/
theorem C6_loss_cascade_junior_first (ts : List Tranche) (L : ℚ) (period : ℕ)
    (hL : 0 ≤ L) (hrem : ∀ t ∈ ts, 0 ≤ t.remaining_principal)
    (hdist : (ts.map (fun t => t.subordination_level)).Nodup) :
    (sortBySubDesc ts).Perm ts ∧
    ((sortBySubDesc ts).map (fun t => t.subordination_level)).Sorted (fun a b => b ≤ a) ∧
    (∀ (t : Tranche) (r : ℚ),
      (t.allocate_loss r period).2.losses = t.losses + min t.remaining_principal r ∧
      (t.allocate_loss r period).2.remaining_principal
        = t.remaining_principal - min t.remaining_principal r ∧
      (0 < min t.remaining_principal r → (t.allocate_loss r period).2.ifrs.stage = 3) ∧
      (t.allocate_loss r period).1 = r - min t.remaining_principal r) ∧
    (lossRun period (sortBySubDesc ts) L).1
      = List.zipWith (fun t r => (t.allocate_loss r period).2) (sortBySubDesc ts)
          (lossResiduals period (sortBySubDesc ts) L) ∧
    ((lossRun period (sortBySubDesc ts) L).1.map (fun t => t.losses)).sum
      = (ts.map (fun t => t.losses)).sum + (L - (lossRun period (sortBySubDesc ts) L).2.2) ∧
    0 ≤ (lossRun period (sortBySubDesc ts) L).2.2 ∧
    L - (lossRun period (sortBySubDesc ts) L).2.2 ≤ L := by
  have hperm : (sortBySubDesc ts).Perm ts :=
    List.perm_insertionSort _ ts
  have hremS : ∀ t ∈ sortBySubDesc ts, 0 ≤ t.remaining_principal :=
    fun t ht => hrem t (hperm.mem_iff.mp ht)
  have hbounds := lossRun_residual_bounds period (sortBySubDesc ts) L hL hremS
  refine ⟨hperm, ?_, ?_, lossRun_zip period (sortBySubDesc ts) L, ?_, hbounds.1, by linarith [hbounds.1]⟩
  · haveI : IsTotal Tranche (fun a b => b.subordination_level ≤ a.subordination_level) :=
      ⟨fun a b => (le_total b.subordination_level a.subordination_level)⟩
    haveI : IsTrans Tranche (fun a b => b.subordination_level ≤ a.subordination_level) :=
      ⟨fun a b c hab hbc => le_trans hbc hab⟩
    have hs := List.sorted_insertionSort
      (fun a b : Tranche => b.subordination_level ≤ a.subordination_level) ts
    exact List.Pairwise.map _ (fun a b h => h) hs
  · intro t r
    refine ⟨rfl, rfl, ?_, rfl⟩
    intro hpos
    simp only [Tranche.allocate_loss, IFRSAccount.move_stage,
      IFRSAccount.recognize_impairment, if_pos hpos]
    norm_num
  · rw [lossRun_losses_sum]
    have : ((sortBySubDesc ts).map (fun t => t.losses)).sum
        = (ts.map (fun t => t.losses)).sum :=
      (hperm.map (fun t => t.losses)).sum_eq
    rw [this]

/-- Witness for C6: three tranches of 10/5/3 with a total loss of 7. -/
theorem C6_loss_cascade_junior_first_witness :
    (0:ℚ) ≤ 7 ∧
    (∀ t ∈ [Tranche.new "A" 10 0 1 none, Tranche.new "B" 5 0 2 none,
            Tranche.new "C" 3 0 3 none], 0 ≤ t.remaining_principal) ∧
    (([Tranche.new "A" 10 0 1 none, Tranche.new "B" 5 0 2 none,
       Tranche.new "C" 3 0 3 none].map (fun t => t.subordination_level)).Nodup) ∧
    ((sortBySubDesc [Tranche.new "A" 10 0 1 none, Tranche.new "B" 5 0 2 none,
        Tranche.new "C" 3 0 3 none]).Perm
      [Tranche.new "A" 10 0 1 none, Tranche.new "B" 5 0 2 none,
       Tranche.new "C" 3 0 3 none] ∧
     ((sortBySubDesc [Tranche.new "A" 10 0 1 none, Tranche.new "B" 5 0 2 none,
        Tranche.new "C" 3 0 3 none]).map (fun t => t.subordination_level)).Sorted
          (fun a b => b ≤ a) ∧
     (∀ (t : Tranche) (r : ℚ),
       (t.allocate_loss r 1).2.losses = t.losses + min t.remaining_principal r ∧
       (t.allocate_loss r 1).2.remaining_principal
         = t.remaining_principal - min t.remaining_principal r ∧
       (0 < min t.remaining_principal r → (t.allocate_loss r 1).2.ifrs.stage = 3) ∧
       (t.allocate_loss r 1).1 = r - min t.remaining_principal r) ∧
     (lossRun 1 (sortBySubDesc [Tranche.new "A" 10 0 1 none, Tranche.new "B" 5 0 2 none,
         Tranche.new "C" 3 0 3 none]) 7).1
       = List.zipWith (fun t r => (t.allocate_loss r 1).2)
           (sortBySubDesc [Tranche.new "A" 10 0 1 none, Tranche.new "B" 5 0 2 none,
             Tranche.new "C" 3 0 3 none])
           (lossResiduals 1 (sortBySubDesc [Tranche.new "A" 10 0 1 none,
             Tranche.new "B" 5 0 2 none, Tranche.new "C" 3 0 3 none]) 7) ∧
     ((lossRun 1 (sortBySubDesc [Tranche.new "A" 10 0 1 none, Tranche.new "B" 5 0 2 none,
         Tranche.new "C" 3 0 3 none]) 7).1.map (fun t => t.losses)).sum
       = ([Tranche.new "A" 10 0 1 none, Tranche.new "B" 5 0 2 none,
           Tranche.new "C" 3 0 3 none].map (fun t => t.losses)).sum
         + (7 - (lossRun 1 (sortBySubDesc [Tranche.new "A" 10 0 1 none,
             Tranche.new "B" 5 0 2 none, Tranche.new "C" 3 0 3 none]) 7).2.2) ∧
     0 ≤ (lossRun 1 (sortBySubDesc [Tranche.new "A" 10 0 1 none,
           Tranche.new "B" 5 0 2 none, Tranche.new "C" 3 0 3 none]) 7).2.2 ∧
     7 - (lossRun 1 (sortBySubDesc [Tranche.new "A" 10 0 1 none,
           Tranche.new "B" 5 0 2 none, Tranche.new "C" 3 0 3 none]) 7).2.2 ≤ 7) :=
  ⟨by norm_num,
   by intro t ht; simp at ht; rcases ht with h | h | h <;> subst h <;> norm_num [Tranche.new],
   by decide,
   C6_loss_cascade_junior_first _ 7 1 (by norm_num)
     (by intro t ht; simp at ht; rcases ht with h | h | h <;> subst h <;> norm_num [Tranche.new])
     (by decide)⟩

/-- The pro-rata payment is nonnegative and never exceeds the remaining
cash pool. -/
theorem proRataPay_bounds (total cash : ℚ) (t : Tranche) (hc : 0 ≤ cash) :
    0 ≤ proRataPay total cash t ∧ proRataPay total cash t ≤ cash := by
  unfold proRataPay
  exact ⟨le_max_right _ _, max_le (min_le_right _ _) hc⟩

/-- With zero total outstanding the pro-rata share is zero, so the
payment of a tranche with nonnegative balance is zero. -/
theorem proRataPay_zero_total (cash : ℚ) (t : Tranche) (hc : 0 ≤ cash)
    (hrem : 0 ≤ t.remaining_principal) : proRataPay 0 cash t = 0 := by
  unfold proRataPay
  simp only [lt_irrefl, if_false, mul_zero]
  rw [min_eq_left hrem, min_eq_left hc]
  exact max_eq_right (le_refl 0)

/-- The pro-rata step's result entries are the iteration order zipped
with the threaded remaining cash pool through `proRataPay`. -/
theorem proRataRun_zip (total : ℚ) (l : List Tranche) :
    ∀ cash : ℚ,
      (proRataRun total l cash).2.1
        = List.zipWith (fun t c => (t.name ++ "_principal_paid", proRataPay total c t)) l
            (proRataCashes total l cash) := by
  induction l with
  | nil => intro cash; rfl
  | cons t ts ih =>
    intro cash
    simp only [proRataRun, proRataCashes, List.zipWith]
    rw [ih]

/-- The pro-rata step's payments sum to the cash drawn from the pool. -/
theorem proRataRun_sum (total : ℚ) (l : List Tranche) :
    ∀ cash : ℚ,
      ((proRataRun total l cash).2.1.map Prod.snd).sum
        = cash - (proRataRun total l cash).2.2 := by
  induction l with
  | nil => intro cash; simp [proRataRun]
  | cons t ts ih =>
    intro cash
    simp only [proRataRun, List.map, List.sum_cons]
    rw [ih]
    ring

/-- The pro-rata step never overdraws the shared principal cash pool. -/
theorem proRataRun_cash_nonneg (total : ℚ) (l : List Tranche) :
    ∀ cash : ℚ, 0 ≤ cash → 0 ≤ (proRataRun total l cash).2.2 := by
  induction l with
  | nil => intro cash hc; exact hc
  | cons t ts ih =>
    intro cash hc
    have := proRataPay_bounds total cash t hc
    exact ih _ (by linarith [this.2])

/-- Every pro-rata payment is nonnegative. -/
theorem proRataRun_pays_nonneg (total : ℚ) (l : List Tranche) :
    ∀ cash : ℚ, 0 ≤ cash → ∀ p ∈ (proRataRun total l cash).2.1, 0 ≤ p.2 := by
  induction l with
  | nil => intro cash _ p hp; simp [proRataRun] at hp
  | cons t ts ih =>
    intro cash hc p hp
    have hb := proRataPay_bounds total cash t hc
    simp only [proRataRun, List.mem_cons] at hp
    rcases hp with h | h
    · rw [h]; exact hb.1
    · exact ih _ (by linarith [hb.2]) p h

/-- With zero total outstanding every pro-rata payment is zero. -/
theorem proRataRun_zero_total (l : List Tranche) :
    ∀ cash : ℚ, 0 ≤ cash → (∀ t ∈ l, 0 ≤ t.remaining_principal) →
      ∀ p ∈ (proRataRun 0 l cash).2.1, p.2 = 0 := by
  induction l with
  | nil => intro cash _ _ p hp; simp [proRataRun] at hp
  | cons t ts ih =>
    intro cash hc hrem p hp
    have hz : proRataPay 0 cash t = 0 :=
      proRataPay_zero_total cash t hc (hrem t (by simp))
    simp only [proRataRun, List.mem_cons] at hp
    rcases hp with h | h
    · rw [h]; exact hz
    · exact ih (cash - proRataPay 0 cash t) (by rw [hz]; linarith)
        (fun x hx => hrem x (by simp [hx])) p h

/-- C7 (amended): in the pro-rata branch each tranche's recorded
principal payment is the REMAINING cash pool at its turn times its share
of the total outstanding balance (the total is a single value computed
before the step), clamped to its own remaining balance and to the
remaining pool and floored at zero; a non-positive total gives share
zero without dividing; payments are nonnegative, sum to the cash drawn,
never overdraw the pool, and total at most the available principal
cash. -/
theorem C7_prorata_remaining_cash_share (ts : List Tranche) (cash total : ℚ)
    (hc : 0 ≤ cash) (hrem : ∀ t ∈ ts, 0 ≤ t.remaining_principal) :
    (proRataRun total ts cash).2.1
      = List.zipWith (fun t c => (t.name ++ "_principal_paid", proRataPay total c t)) ts
          (proRataCashes total ts cash) ∧
    (∀ (t : Tranche) (c : ℚ),
      proRataPay total c t
        = max (min (min (c * (if 0 < total then t.remaining_principal / total else 0))
            t.remaining_principal) c) 0) ∧
    ((proRataRun total ts cash).2.1.map Prod.snd).sum
      = cash - (proRataRun total ts cash).2.2 ∧
    0 ≤ (proRataRun total ts cash).2.2 ∧
    ((proRataRun total ts cash).2.1.map Prod.snd).sum ≤ cash ∧
    (∀ p ∈ (proRataRun total ts cash).2.1, 0 ≤ p.2) ∧
    (total = 0 → ∀ p ∈ (proRataRun total ts cash).2.1, p.2 = 0) := by
  have hnn := proRataRun_cash_nonneg total ts cash hc
  refine ⟨proRataRun_zip total ts cash, fun t c => rfl,
    proRataRun_sum total ts cash, hnn, ?_,
    proRataRun_pays_nonneg total ts cash hc, ?_⟩
  · rw [proRataRun_sum]; linarith
  · intro h0
    subst h0
    exact proRataRun_zero_total ts cash hc hrem

/-- Witness for C7 (amended) at the same two-tranche scenario as the
counterexample. -/
theorem C7_prorata_remaining_cash_share_witness :
    (0:ℚ) ≤ 100 ∧
    (∀ t ∈ [Tranche.new "A" 100 0 1 none, Tranche.new "B" 100 0 2 none],
      0 ≤ t.remaining_principal) ∧
    ((proRataRun 200 [Tranche.new "A" 100 0 1 none, Tranche.new "B" 100 0 2 none] 100).2.1
      = List.zipWith (fun t c => (t.name ++ "_principal_paid", proRataPay 200 c t))
          [Tranche.new "A" 100 0 1 none, Tranche.new "B" 100 0 2 none]
          (proRataCashes 200 [Tranche.new "A" 100 0 1 none, Tranche.new "B" 100 0 2 none] 100) ∧
     (∀ (t : Tranche) (c : ℚ),
       proRataPay 200 c t
         = max (min (min (c * (if (0:ℚ) < 200 then t.remaining_principal / 200 else 0))
             t.remaining_principal) c) 0) ∧
     ((proRataRun 200 [Tranche.new "A" 100 0 1 none, Tranche.new "B" 100 0 2 none]
         100).2.1.map Prod.snd).sum
       = 100 - (proRataRun 200 [Tranche.new "A" 100 0 1 none,
           Tranche.new "B" 100 0 2 none] 100).2.2 ∧
     0 ≤ (proRataRun 200 [Tranche.new "A" 100 0 1 none,
           Tranche.new "B" 100 0 2 none] 100).2.2 ∧
     ((proRataRun 200 [Tranche.new "A" 100 0 1 none, Tranche.new "B" 100 0 2 none]
         100).2.1.map Prod.snd).sum ≤ 100 ∧
     (∀ p ∈ (proRataRun 200 [Tranche.new "A" 100 0 1 none,
           Tranche.new "B" 100 0 2 none] 100).2.1, 0 ≤ p.2) ∧
     ((200:ℚ) = 0 → ∀ p ∈ (proRataRun 200 [Tranche.new "A" 100 0 1 none,
           Tranche.new "B" 100 0 2 none] 100).2.1, p.2 = 0)) :=
  ⟨by norm_num,
   by intro t ht; simp at ht; rcases ht with h | h <;> subst h <;> norm_num [Tranche.new],
   C7_prorata_remaining_cash_share _ 100 200 (by norm_num)
     (by intro t ht; simp at ht; rcases ht with h | h <;> subst h <;> norm_num [Tranche.new])⟩

/-- Checking the call leaves the call price untouched. -/
theorem check_call_price (c : CallableOption) (p : ℕ) (pb trig : ℚ) :
    (c.check_call p pb trig).2.call_price_pct = c.call_price_pct := by
  simp only [CallableOption.check_call]
  split <;> rfl

/-- One simulation period differs between two run dates only in the
`date` entry of its record; the successor state and the stop flag are
identical. -/
theorem simStep_eraseDate (cfg : SimConfig) (today₁ today₂ t : ℕ) (st : SimState) :
    eraseDate (simStep cfg today₁ t st).1 = eraseDate (simStep cfg today₂ t st).1 ∧
    (simStep cfg today₁ t st).2 = (simStep cfg today₂ t st).2 := by
  constructor
  · simp [simStep, eraseDate, List.filter]
  · rfl

/-- The whole period loop is independent of the run date except for the
`date` entries. -/
theorem simLoop_eraseDate (cfg : SimConfig) (today₁ today₂ : ℕ) :
    ∀ (fuel t : ℕ) (st : SimState),
      (simLoop cfg today₁ t fuel st).map eraseDate
        = (simLoop cfg today₂ t fuel st).map eraseDate := by
  intro fuel
  induction fuel with
  | zero => intro t st; rfl
  | succ n ih =>
    intro t st
    have h := simStep_eraseDate cfg today₁ today₂ t st
    simp only [simLoop, List.map]
    rw [h.1, h.2]
    by_cases hb : (simStep cfg today₂ t st).2.2 = true
    · simp [hb]
    · simp only [Bool.not_eq_true] at hb
      simp [hb, ih]

/-- C4 (amended): the simulation is a pure function of its inputs plus
the wall-clock run date.  Two runs from the same configuration and state
produce period-record sequences that agree on every field except `date`
(whose value shifts with the run date); runs sharing the run date are
fully identical. -/
theorem C4_deterministic_up_to_date (cfg : SimConfig) (st : SimState)
    (today₁ today₂ : ℕ) :
    (simulate_abs cfg today₁ st).map eraseDate
      = (simulate_abs cfg today₂ st).map eraseDate ∧
    (today₁ = today₂ → simulate_abs cfg today₁ st = simulate_abs cfg today₂ st) := by
  refine ⟨simLoop_eraseDate cfg today₁ today₂ cfg.periods 0 st, ?_⟩
  intro h
  rw [h]

/-- Witness for C4 (amended) at the concrete one-tranche scenario with
run dates 0 and 5. -/
theorem C4_deterministic_up_to_date_witness :
    (simulate_abs cfgSmall 0 stC4).map eraseDate
      = (simulate_abs cfgSmall 5 stC4).map eraseDate ∧
    ((0:ℕ) = 5 → simulate_abs cfgSmall 0 stC4 = simulate_abs cfgSmall 5 stC4) :=
  C4_deterministic_up_to_date cfgSmall stC4 0 5

/-- C4 counterexample: two runs of `simulate_abs` with identical pool,
tranches, reserve, fees, option and scenario configuration but started
on different wall-clock dates (`datetime.today()` month index 0 vs 1)
produce different period-record sequences: the first record's `date`
field already differs, so the claimed input-only determinism of every
field including `date` fails. -/
theorem C4_date_field_differs :
    (simulate_abs cfgSmall 0 stC4).head?.map (fun r => r.lookup "date")
      ≠ (simulate_abs cfgSmall 1 stC4).head?.map (fun r => r.lookup "date") ∧
    simulate_abs cfgSmall 0 stC4 ≠ simulate_abs cfgSmall 1 stC4 := by
  have h0 : (simulate_abs cfgSmall 0 stC4).head?.map (fun r => r.lookup "date")
      = some (some (Val.date 0)) := rfl
  have h1 : (simulate_abs cfgSmall 1 stC4).head?.map (fun r => r.lookup "date")
      = some (some (Val.date 1)) := rfl
  have hne : (some (some (Val.date 0)) : Option (Option Val))
      ≠ some (some (Val.date 1)) := by decide
  constructor
  · rw [h0, h1]; exact hne
  · intro h
    have hcong := congrArg (fun l : List Record =>
      l.head?.map (fun r => r.lookup "date")) h
    simp only at hcong
    rw [h0, h1] at hcong
    exact hne hcong

/-- C3 (amended): when the call option triggers, the driver pays every
tranche its full remaining balance times the call price fraction through
`pay_principal` (for 0 ≤ price ≤ 1 and nonnegative balances the clamp is
inactive, so exactly that amount is paid and deducted), the simulation
stops, and the terminal record consists of the month/date entries, the
five pool totals, the per-tranche call-redemption amounts and a
`called = true` flag — the regular per-period fields (waterfall results,
reinvested principal, per-tranche outstanding/impairment reporting, fee
accruals, reserve and pool balances) are NOT part of it. -/
theorem C3_call_branch_record (cfg : SimConfig) (today t : ℕ) (st : SimState)
    (c0 : CallableOption) (hc : st.callable_opt = some c0)
    (hcall : (c0.check_call (t + 1) (poolAggregate cfg st).pool_balance
        (5 / 100 * (poolAggregate cfg st).notes_balance)).1 = true)
    (hpct0 : 0 ≤ c0.call_price_pct) (hpct1 : c0.call_price_pct ≤ 1)
    (hrem : ∀ tr ∈ st.tranches, 0 ≤ tr.remaining_principal) :
    (simStep cfg today t st).1
      = ("month", Val.num (t + 1)) :: ("date", Val.date (today + t)) ::
        ("total_interest", Val.num (poolAggregate cfg st).total_interest) ::
        ("total_principal", Val.num (poolAggregate cfg st).total_principal) ::
        ("total_prepayment", Val.num (poolAggregate cfg st).total_prepayment) ::
        ("total_default", Val.num (poolAggregate cfg st).total_default) ::
        ("total_losses", Val.num (poolAggregate cfg st).total_losses) ::
        (st.tranches.map (fun tr => (tr.name ++ "_call_redemption",
            Val.num (tr.remaining_principal * c0.call_price_pct)))
          ++ [("called", Val.bool true)]) ∧
    (simStep cfg today t st).1.map Prod.fst
      = ["month", "date", "total_interest", "total_principal", "total_prepayment",
         "total_default", "total_losses"]
        ++ st.tranches.map (fun tr => tr.name ++ "_call_redemption") ++ ["called"] ∧
    (simStep cfg today t st).2.2 = true ∧
    (simStep cfg today t st).2.1.tranches
      = st.tranches.map (fun tr =>
          (tr.pay_principal (tr.remaining_principal * c0.call_price_pct)).2) ∧
    (∀ tr ∈ st.tranches,
      (tr.pay_principal (tr.remaining_principal * c0.call_price_pct)).1
        = tr.remaining_principal * c0.call_price_pct ∧
      (tr.pay_principal (tr.remaining_principal * c0.call_price_pct)).2.remaining_principal
        = tr.remaining_principal - tr.remaining_principal * c0.call_price_pct) := by
  have hprice := check_call_price c0 (t + 1) (poolAggregate cfg st).pool_balance
    (5 / 100 * (poolAggregate cfg st).notes_balance)
  have hrec : (simStep cfg today t st).1
      = ("month", Val.num (t + 1)) :: ("date", Val.date (today + t)) ::
        ("total_interest", Val.num (poolAggregate cfg st).total_interest) ::
        ("total_principal", Val.num (poolAggregate cfg st).total_principal) ::
        ("total_prepayment", Val.num (poolAggregate cfg st).total_prepayment) ::
        ("total_default", Val.num (poolAggregate cfg st).total_default) ::
        ("total_losses", Val.num (poolAggregate cfg st).total_losses) ::
        (st.tranches.map (fun tr => (tr.name ++ "_call_redemption",
            Val.num (tr.remaining_principal * c0.call_price_pct)))
          ++ [("called", Val.bool true)]) := by
    simp only [simStep, simStepRest, hc, hcall, if_true, hprice, List.map_map]
    rfl
  have hstop : (simStep cfg today t st).2.2 = true := by
    simp only [simStep, simStepRest, hc, hcall, if_true]
  have htr : (simStep cfg today t st).2.1.tranches
      = st.tranches.map (fun tr =>
          (tr.pay_principal (tr.remaining_principal * c0.call_price_pct)).2) := by
    simp only [simStep, simStepRest, hc, hcall, if_true, hprice, List.map_map]
    rfl
  refine ⟨hrec, ?_, hstop, htr, ?_⟩
  · rw [hrec]
    simp [List.map_map]
  · intro tr htr0
    have hle : tr.remaining_principal * c0.call_price_pct ≤ tr.remaining_principal :=
      mul_le_of_le_one_right (hrem tr htr0) hpct1
    have hmin : min tr.remaining_principal (tr.remaining_principal * c0.call_price_pct)
        = tr.remaining_principal * c0.call_price_pct := min_eq_right hle
    constructor
    · show min tr.remaining_principal (tr.remaining_principal * c0.call_price_pct)
        = tr.remaining_principal * c0.call_price_pct
      exact hmin
    · show tr.remaining_principal
        - min tr.remaining_principal (tr.remaining_principal * c0.call_price_pct)
        = tr.remaining_principal - tr.remaining_principal * c0.call_price_pct
      rw [hmin]

/-- Witness for C3 (amended): the concrete call scenario (empty pool,
one tranche of 100, callable from period 1 at par). -/
theorem C3_call_branch_record_witness :
    (simStep cfgSmall 0 0 stC3call).1
      = ("month", Val.num 1) :: ("date", Val.date 0) ::
        ("total_interest", Val.num (poolAggregate cfgSmall stC3call).total_interest) ::
        ("total_principal", Val.num (poolAggregate cfgSmall stC3call).total_principal) ::
        ("total_prepayment", Val.num (poolAggregate cfgSmall stC3call).total_prepayment) ::
        ("total_default", Val.num (poolAggregate cfgSmall stC3call).total_default) ::
        ("total_losses", Val.num (poolAggregate cfgSmall stC3call).total_losses) ::
        (stC3call.tranches.map (fun tr => (tr.name ++ "_call_redemption",
            Val.num (tr.remaining_principal * 1)))
          ++ [("called", Val.bool true)]) ∧
    (simStep cfgSmall 0 0 stC3call).1.map Prod.fst
      = ["month", "date", "total_interest", "total_principal", "total_prepayment",
         "total_default", "total_losses"]
        ++ stC3call.tranches.map (fun tr => tr.name ++ "_call_redemption") ++ ["called"] ∧
    (simStep cfgSmall 0 0 stC3call).2.2 = true ∧
    (simStep cfgSmall 0 0 stC3call).2.1.tranches
      = stC3call.tranches.map (fun tr =>
          (tr.pay_principal (tr.remaining_principal * 1)).2) ∧
    (∀ tr ∈ stC3call.tranches,
      (tr.pay_principal (tr.remaining_principal * 1)).1
        = tr.remaining_principal * 1 ∧
      (tr.pay_principal (tr.remaining_principal * 1)).2.remaining_principal
        = tr.remaining_principal - tr.remaining_principal * 1) :=
  by
  have h := C3_call_branch_record cfgSmall 0 0 stC3call ⟨1, 1, false⟩ rfl
    (by norm_num [CallableOption.check_call, poolAggregate, stC3call, cfgSmall,
      Tranche.new])
    (by norm_num) (by norm_num)
    (by intro tr htr; simp [stC3call] at htr; subst htr; norm_num [Tranche.new])
  simpa using h

/-- C3 counterexample: the terminal call record's field set is NOT the
regular record's field set plus the call-redemption/called fields — the
regular field `reserve_balance` (among many others) is absent from the
terminal record.  Both records come from the same structure (one
100-tranche, empty pool, no fees); only the option's call period
differs, so period 1 is terminal in one run and regular in the other. -/
theorem C3_terminal_record_drops_fields :
    "reserve_balance" ∈ (simStep cfgSmall 0 0 stC3reg).1.map Prod.fst ∧
    "reserve_balance" ∉ (simStep cfgSmall 0 0 stC3call).1.map Prod.fst := by
  have hreg : (simStep cfgSmall 0 0 stC3reg).1.map Prod.fst
      = ["month", "date", "total_interest", "total_principal", "total_prepayment",
         "total_default", "total_losses", "fees_paid", "A_interest_paid",
         "A_principal_paid", "A_losses", "reserve_fill", "reinvested_principal",
         "A_outstanding", "A_ifrs_interest_income", "A_ifrs_impairment", "A_stage",
         "reserve_balance", "pool_balance"] := by
    norm_num [cfgSmall, stC3reg, simStep, simStepRest, poolAggregate, regularStep,
      CallableOption.check_call, waterfall, feeRun, interestRun, seqPrincipalRun,
      lossRun, restoreOrder, sortFeesByPriority, sortBySubAsc, sortBySubDesc,
      List.insertionSort, List.orderedInsert, Tranche.new, Tranche.pay_interest,
      Tranche.pay_principal, Tranche.allocate_loss, IFRSAccount.accrue_interest,
      IFRSAccount.move_stage, IFRSAccount.recognize_impairment, ReserveAccount.fill,
      reinvestCount, loan_size]
    decide
  have hcall : (simStep cfgSmall 0 0 stC3call).1.map Prod.fst
      = ["month", "date", "total_interest", "total_principal", "total_prepayment",
         "total_default", "total_losses", "A_call_redemption", "called"] := by
    norm_num [cfgSmall, stC3call, simStep, simStepRest, poolAggregate,
      CallableOption.check_call, Tranche.new, Tranche.pay_principal]
    decide
  exact ⟨by rw [hreg]; decide, by rw [hcall]; decide⟩
